import Mathlib

/-!
Verification of the gotp library (gotp.go): RFC4226 HOTP generation,
RFC6238 TOTP generation, challenge verification with a drift window, and
token construction with a base-32 display encoding.

Byte sequences are modelled as `List Nat` with every element below 256.
Machine integers are modelled as `Nat`/`Int` with explicit reduction
modulo 2^32 where the 32-bit SHA-1 arithmetic wraps.  Go's fallible
functions returning `(T, error)` are modelled as `Except String T`.
-/

set_option maxRecDepth 100000

/-! ## SHA-1 and HMAC-SHA1 (model of Go crypto/sha1 and crypto/hmac) -/

/-- Rotate a 32-bit word left by `n` bits (`n < 32`, `x < 2^32`). -/
def rotl32 (n x : Nat) : Nat := ((x <<< n) ||| (x >>> (32 - n))) % 4294967296

/-- Round constant of SHA-1 (FIPS 180-4). -/
def sha1K (t : Nat) : Nat :=
  if t < 20 then 0x5A827999 else if t < 40 then 0x6ED9EBA1
  else if t < 60 then 0x8F1BBCDC else 0xCA62C1D6

/-- Round function of SHA-1 (FIPS 180-4); complement is taken within 32 bits. -/
def sha1F (t b c d : Nat) : Nat :=
  if t < 20 then (b &&& c) ||| ((b ^^^ 0xFFFFFFFF) &&& d)
  else if t < 40 then b ^^^ c ^^^ d
  else if t < 60 then (b &&& c) ||| (b &&& d) ||| (c &&& d)
  else b ^^^ c ^^^ d

/-- Message schedule: 16 big-endian words from a 64-byte block, extended to 80. -/
def sha1Schedule (block : List Nat) : List Nat :=
  let w16 := (List.range 16).map (fun i =>
    ((block.getD (4*i) 0) <<< 24) ||| ((block.getD (4*i+1) 0) <<< 16) |||
    ((block.getD (4*i+2) 0) <<< 8) ||| (block.getD (4*i+3) 0))
  (List.range 64).foldl (fun w _ =>
    w ++ [rotl32 1 ((w.getD (w.length-3) 0) ^^^ (w.getD (w.length-8) 0) ^^^
                    (w.getD (w.length-14) 0) ^^^ (w.getD (w.length-16) 0))]) w16

/-- One SHA-1 block compression step on the five-word chaining state. -/
def sha1Compress (h : Nat×Nat×Nat×Nat×Nat) (block : List Nat) : Nat×Nat×Nat×Nat×Nat :=
  let w := sha1Schedule block
  let st := (List.range 80).foldl (fun (st : Nat×Nat×Nat×Nat×Nat) t =>
    let (a, b, c, d, e) := st
    let temp := (rotl32 5 a + sha1F t b c d + e + sha1K t + w.getD t 0) % 4294967296
    (temp, a, rotl32 30 b, c, d)) h
  match h, st with
  | (h0,h1,h2,h3,h4), (a,b,c,d,e) =>
    ((h0+a) % 4294967296, (h1+b) % 4294967296, (h2+c) % 4294967296,
     (h3+d) % 4294967296, (h4+e) % 4294967296)

/-- Big-endian byte rendering of `val` on `n` bytes. -/
def natToBytesBE (n : Nat) (val : Nat) : List Nat :=
  (List.range n).map (fun i => (val >>> (8*(n-1-i))) % 256)

/-- SHA-1 padding: a 0x80 byte, zeroes to 56 mod 64, then the bit length on 8 bytes. -/
def sha1Pad (msg : List Nat) : List Nat :=
  let z := (120 - ((msg.length + 1) % 64)) % 64
  msg ++ [0x80] ++ List.replicate z 0 ++ natToBytesBE 8 (msg.length * 8)

/-- Fold the compression function over successive 64-byte blocks.  The fuel
argument (instantiated with the padded length) makes the recursion structural;
one unit of fuel per block is more than enough. -/
def sha1BlocksFuel : Nat → (Nat×Nat×Nat×Nat×Nat) → List Nat → (Nat×Nat×Nat×Nat×Nat)
  | 0, h, _ => h
  | _+1, h, [] => h
  | fuel+1, h, msg@(_ :: _) => sha1BlocksFuel fuel (sha1Compress h (msg.take 64)) (msg.drop 64)

/-- Serialise the final chaining state as 20 big-endian bytes. -/
def sha1Output : Nat×Nat×Nat×Nat×Nat → List Nat
  | (h0,h1,h2,h3,h4) =>
    [(h0 >>> 24) % 256, (h0 >>> 16) % 256, (h0 >>> 8) % 256, h0 % 256,
     (h1 >>> 24) % 256, (h1 >>> 16) % 256, (h1 >>> 8) % 256, h1 % 256,
     (h2 >>> 24) % 256, (h2 >>> 16) % 256, (h2 >>> 8) % 256, h2 % 256,
     (h3 >>> 24) % 256, (h3 >>> 16) % 256, (h3 >>> 8) % 256, h3 % 256,
     (h4 >>> 24) % 256, (h4 >>> 16) % 256, (h4 >>> 8) % 256, h4 % 256]

/-- SHA-1 of a byte sequence (model of Go crypto/sha1.Sum, checked against the
FIPS 180 test vectors). -/
def sha1 (msg : List Nat) : List Nat :=
  let padded := sha1Pad msg
  sha1Output (sha1BlocksFuel padded.length
    (0x67452301, 0xEFCDAB89, 0x98BADCFE, 0x10325476, 0xC3D2E1F0) padded)

/-- HMAC-SHA1 (model of Go crypto/hmac with sha1.New, per RFC 2104, checked
against the RFC 2202 test vectors): keys longer than the 64-byte block are
hashed first, then padded with zeroes to 64 bytes. -/
def hmacSha1 (key msg : List Nat) : List Nat :=
  let key1 := if 64 < key.length then sha1 key else key
  let keyPad := key1 ++ List.replicate (64 - key1.length) 0
  sha1 ((keyPad.map (fun b => b ^^^ 0x5C)) ++ sha1 ((keyPad.map (fun b => b ^^^ 0x36)) ++ msg))

/-! ## Base-32 (model of Go encoding/base32 StdEncoding, RFC 4648) -/

/-- The standard base-32 alphabet of RFC 4648. -/
def base32Alphabet : List Char := "ABCDEFGHIJKLMNOPQRSTUVWXYZ234567".data

/-- Encode a final (or full) group of 1 to 5 bytes into 8 characters,
padding with the = character. -/
def b32Group (chunk : List Nat) : List Char :=
  let n := chunk.length
  let bits := (chunk.foldl (fun a b => a * 256 + b) 0) <<< (8 * (5 - n))
  let numChars := [0,2,4,5,7,8].getD n 0
  ((List.range numChars).map (fun i => base32Alphabet.getD ((bits >>> (35 - 5*i)) % 32) 'A'))
    ++ List.replicate (8 - numChars) '='

/-- Encode successive 5-byte groups; fuel (one unit per input byte) makes the
recursion structural. -/
def base32EncodeAux : Nat → List Nat → List Char
  | 0, _ => []
  | _+1, [] => []
  | fuel+1, bs@(_ :: _) => b32Group (bs.take 5) ++ base32EncodeAux fuel (bs.drop 5)

/-- RFC 4648 base-32 encoding with padding, as produced by Go
base32.StdEncoding.EncodeToString (checked against the RFC 4648 test vectors). -/
def base32Encode (bs : List Nat) : String := ⟨base32EncodeAux bs.length bs⟩

/-! ## The gotp library itself (gotp.go) -/

/-- Default step of RFC6238, gotp.go line 22. -/
def StepSeconds : Int := 30

/-- Default seed length, gotp.go line 25. -/
def SeedLength : Nat := 20

/-- Default generated-code length, gotp.go line 28. -/
def TokenLength : Nat := 6

/-- The core one-time password struct (gotp.go lines 38-41). -/
structure Token where
  Seed : List Nat
  Base32 : String
deriving Repr, DecidableEq

/-- Go's int(math.Pow10 n).  math.Pow10 is exact and fits in an int64 for
every exponent that can reach this call meaningfully (TokenLength is 6 by
default and at most 8 in practice), so it is modelled as the exact power. -/
def pow10 (n : Nat) : Nat := 10 ^ n

/-- Digits of `n` in base 10, most significant first; the fuel argument
(any value above `n`) makes the recursion structural. -/
def decimalDigitsAux (fuel : Nat) (n : Nat) : List Nat :=
  match fuel with
  | 0 => []
  | fuel+1 => if n < 10 then [n] else decimalDigitsAux fuel (n/10) ++ [n % 10]

/-- Digits of `n` in base 10, most significant first. -/
def decimalDigits (n : Nat) : List Nat := decimalDigitsAux (n+1) n

/-- Go's fmt.Sprintf with a %0*d verb: decimal rendering of `n`, left-padded
with zeroes to `len` characters. -/
def otpString (len : Nat) (n : Nat) : String :=
  let ds := decimalDigits n
  ⟨(List.replicate (len - ds.length) 0 ++ ds).map (fun d => Char.ofNat (48 + d))⟩

/-- The successful branch of Token.GenerateOTP (gotp.go lines 54-70): HMAC,
dynamic truncation per RFC4226 section 5.4, reduction mod 10^TokenLength and
zero-padded decimal rendering.  The truncation is written exactly as in the
source: offset from the last digest byte, 0x7F mask on the first extracted
byte, 0xFF masks on the following three. -/
def otpCode (seed counterBytes : List Nat) (tokenLength : Nat) : String :=
  let digest := hmacSha1 seed counterBytes
  let offset := (digest.getD (digest.length - 1) 0) &&& 0xF
  let otp := (((digest.getD offset 0) &&& 0x7F) <<< 24) |||
             (((digest.getD (offset+1) 0) &&& 0xFF) <<< 16) |||
             (((digest.getD (offset+2) 0) &&& 0xFF) <<< 8) |||
             ((digest.getD (offset+3) 0) &&& 0xFF)
  otpString tokenLength (otp % pow10 tokenLength)

/-- Token.GenerateOTP (gotp.go lines 45-73).  The configured code length is an
explicit parameter standing for the process-wide TokenLength variable. -/
def GenerateOTP (seed counterBytes : List Nat) (tokenLength : Nat) : Except String String :=
  if seed.length = 0 then .error "OTP has no seed."
  else if counterBytes.length = 0 then .error "Counter is nil or otherwise malformed."
  else .ok (otpCode seed counterBytes tokenLength)

/-- The byte-filling loop of Token.GenerateTOTP (gotp.go lines 78-82): Go's
`timeStep & 0xff` on a two's-complement int64 is `Int.emod _ 256` and its
arithmetic right shift by 8 is `Int.fdiv _ 256`. -/
def stepBytesAux : Nat → Int → List Nat → List Nat
  | 0, _, acc => acc
  | n+1, ts, acc => stepBytesAux n (Int.fdiv ts 256) ((ts.emod 256).toNat :: acc)

/-- The 8-byte counter encoding of a (possibly negative) time step, as built
by the loop in Token.GenerateTOTP. -/
def counterBytesOfStep (ts : Int) : List Nat := stepBytesAux 8 ts []

/-- Token.GenerateTOTP (gotp.go lines 76-85).  Go's `/` on int64 truncates
toward zero, which is `Int.tdiv`.  StepSeconds and TokenLength are explicit
parameters standing for the process-wide variables. -/
def GenerateTOTP (seed : List Nat) (stepSeconds : Int) (tokenLength : Nat)
    (genTime : Int) : Except String String :=
  GenerateOTP seed (counterBytesOfStep (Int.tdiv genTime stepSeconds)) tokenLength

/-- The OTP-collecting loop of Token.VerifyChallenge (gotp.go lines 99-107):
`none` when some generation fails (the Go loop returns false there). -/
def collectOTPs (seed : List Nat) (stepSeconds : Int) (tokenLength : Nat)
    (now : Int) : List Int → Option (List String)
  | [] => some []
  | s :: rest =>
    match GenerateTOTP seed stepSeconds tokenLength (now + s) with
    | .error _ => none
    | .ok otp =>
      match collectOTPs seed stepSeconds tokenLength now rest with
      | none => none
      | some otps => some (otp :: otps)

/-- Token.VerifyChallenge (gotp.go lines 91-116), with the wall-clock read
`time.Now().Unix()` replaced by the explicit parameter `now` as the spec
directs for a testable model.  With drift the step offsets are
`[0, -1*StepSeconds, StepSeconds]` exactly as built on lines 93-97. -/
def VerifyChallenge (seed : List Nat) (stepSeconds : Int) (tokenLength : Nat)
    (now : Int) (challenge : String) (drift : Bool) : Bool :=
  let steps : List Int := if drift then [0, -1 * stepSeconds, stepSeconds] else [0]
  match collectOTPs seed stepSeconds tokenLength now steps with
  | none => false
  | some otps => otps.contains challenge

/-- Go's strings.ToUpper, character by character. -/
def toUpperStr (s : String) : String := ⟨s.data.map Char.toUpper⟩

/-- TokenFromBytes (gotp.go lines 119-126): stores the seed and its uppercased
base-32 rendering; never fails. -/
def TokenFromBytes (seedBytes : List Nat) : Except String Token :=
  .ok { Seed := seedBytes, Base32 := toUpperStr (base32Encode seedBytes) }

/-! ## Specification-side definitions -/

/-- The test seed of gotp_test.go: the 20 bytes 65..84. -/
def seedT : List Nat := [65,66,67,68,69,70,71,72,73,74,75,76,77,78,79,80,81,82,83,84]

/-- The dynamic-truncation value exactly as the spec words it: offset from
the low nibble of digest byte 19, first byte masked with 0x7F, the four bytes
combined big-endian, no other masks. -/
def binCodeSpec (seed counter : List Nat) : Nat :=
  let digest := hmacSha1 seed counter
  let offset := (digest.getD 19 0) &&& 0xF
  (((digest.getD offset 0) &&& 0x7F) <<< 24) ||| ((digest.getD (offset+1) 0) <<< 16) |||
    ((digest.getD (offset+2) 0) <<< 8) ||| (digest.getD (offset+3) 0)

/-- Numeric value of a decimal digit string. -/
def natOfString (s : String) : Nat := s.data.foldl (fun a c => a * 10 + (c.toNat - 48)) 0

/-- Value of a most-significant-first digit list. -/
def parseDigits (ds : List Nat) : Nat := ds.foldl (fun a d => a * 10 + d) 0

/-- The 8-byte big-endian encoding of a nonnegative counter, as the spec
words it. -/
def bigEndian8 (n : Nat) : List Nat := (List.range 8).map (fun i => n / 256 ^ (7 - i) % 256)

/-- The code GenerateTOTP produces at time `t` when generation succeeds. -/
def totpCode (seed : List Nat) (stepSeconds : Int) (tokenLength : Nat) (t : Int) : String :=
  otpCode seed (counterBytesOfStep (Int.tdiv t stepSeconds)) tokenLength

/-! ## Helper lemmas -/

theorem sha1_length (msg : List Nat) : (sha1 msg).length = 20 := by
  unfold sha1
  obtain ⟨a, b, c, d, e⟩ := sha1BlocksFuel (sha1Pad msg).length
    (0x67452301, 0xEFCDAB89, 0x98BADCFE, 0x10325476, 0xC3D2E1F0) (sha1Pad msg)
  simp [sha1Output]

theorem sha1_bytes_lt (msg : List Nat) : ∀ b ∈ sha1 msg, b < 256 := by
  unfold sha1
  obtain ⟨a, b, c, d, e⟩ := sha1BlocksFuel (sha1Pad msg).length
    (0x67452301, 0xEFCDAB89, 0x98BADCFE, 0x10325476, 0xC3D2E1F0) (sha1Pad msg)
  intro x hx
  simp only [sha1Output, List.mem_cons, List.not_mem_nil, or_false] at hx
  rcases hx with h | h | h | h | h | h | h | h | h | h | h | h | h | h | h | h | h | h | h | h <;>
    subst h <;> exact Nat.mod_lt _ (by norm_num)

theorem hmacSha1_length (key msg : List Nat) : (hmacSha1 key msg).length = 20 := by
  unfold hmacSha1
  exact sha1_length _

theorem hmacSha1_bytes_lt (key msg : List Nat) : ∀ b ∈ hmacSha1 key msg, b < 256 := by
  unfold hmacSha1
  exact sha1_bytes_lt _

theorem getD_lt_256 {l : List Nat} (hl : ∀ b ∈ l, b < 256) (i : Nat) : l.getD i 0 < 256 := by
  by_cases h : i < l.length
  · rw [List.getD_eq_getElem l 0 h]
    exact hl _ (List.getElem_mem h)
  · rw [List.getD_eq_default l 0 (Nat.le_of_not_lt h)]
    norm_num

theorem and_255_of_lt {x : Nat} (h : x < 256) : x &&& 255 = x := by
  have := Nat.and_pow_two_sub_one_of_lt_two_pow (n := 8) (x := x)
    (Nat.lt_of_lt_of_le h (by norm_num))
  norm_num at this
  exact this

theorem decimalDigitsAux_lt (fuel : Nat) : ∀ n, ∀ d ∈ decimalDigitsAux fuel n, d < 10 := by
  induction fuel with
  | zero => intro n d hd; simp [decimalDigitsAux] at hd
  | succ fuel ih =>
    intro n d hd
    rw [decimalDigitsAux] at hd
    by_cases h : n < 10
    · rw [if_pos h] at hd
      simp at hd
      omega
    · rw [if_neg h] at hd
      rcases List.mem_append.mp hd with h1 | h1
      · exact ih _ _ h1
      · simp at h1
        omega

theorem foldl_decimalDigitsAux (fuel : Nat) :
    ∀ n acc, n < fuel →
      (decimalDigitsAux fuel n).foldl (fun a d => a * 10 + d) acc =
        acc * 10 ^ (decimalDigitsAux fuel n).length + n := by
  induction fuel with
  | zero => omega
  | succ fuel ih =>
    intro n acc hn
    rw [decimalDigitsAux]
    by_cases h : n < 10
    · simp [if_pos h]
    · rw [if_neg h]
      have hdiv : n / 10 < fuel := by
        have : n / 10 < n := Nat.div_lt_self (by omega) (by omega)
        omega
      rw [List.foldl_append, ih _ acc hdiv]
      simp only [List.foldl_cons, List.foldl_nil, List.length_append, List.length_cons,
        List.length_nil, Nat.zero_add, pow_succ]
      have hmod : 10 * (n / 10) + n % 10 = n := Nat.div_add_mod n 10
      calc (acc * 10 ^ (decimalDigitsAux fuel (n / 10)).length + n / 10) * 10 + n % 10
          = acc * (10 ^ (decimalDigitsAux fuel (n / 10)).length * 10) +
              (10 * (n / 10) + n % 10) := by ring
        _ = acc * (10 ^ (decimalDigitsAux fuel (n / 10)).length * 10) + n := by rw [hmod]

theorem parseDigits_decimalDigits (n : Nat) : parseDigits (decimalDigits n) = n := by
  have := foldl_decimalDigitsAux (n+1) n 0 (by omega)
  simpa [parseDigits, decimalDigits] using this

theorem parseDigits_replicate_zero (k : Nat) (ds : List Nat) :
    parseDigits (List.replicate k 0 ++ ds) = parseDigits ds := by
  induction k with
  | zero => simp
  | succ k ih => simpa [List.replicate_succ, parseDigits] using ih

theorem natOfString_map_digits (ds : List Nat) (h : ∀ d ∈ ds, d < 10) :
    natOfString ⟨ds.map (fun d => Char.ofNat (48 + d))⟩ = parseDigits ds := by
  suffices h2 : ∀ acc, (ds.map (fun d => Char.ofNat (48 + d))).foldl
      (fun a c => a * 10 + (c.toNat - 48)) acc = ds.foldl (fun a d => a * 10 + d) acc by
    simpa [natOfString, parseDigits] using h2 0
  induction ds with
  | nil => intro acc; simp
  | cons d ds ih =>
    intro acc
    have hd : d < 10 := h d (List.mem_cons_self d ds)
    have hds : ∀ x ∈ ds, x < 10 := fun x hx => h x (List.mem_cons_of_mem d hx)
    have hchar : (Char.ofNat (48 + d)).toNat = 48 + d := by
      interval_cases d <;> decide
    simp only [List.map_cons, List.foldl_cons, hchar]
    rw [ih hds]
    congr 1
    omega

theorem natOfString_otpString (len n : Nat) : natOfString (otpString len n) = n := by
  have hlt : ∀ d ∈ List.replicate (len - (decimalDigits n).length) 0 ++ decimalDigits n,
      d < 10 := by
    intro d hd
    rcases List.mem_append.mp hd with h | h
    · have := List.eq_of_mem_replicate h
      omega
    · exact decimalDigitsAux_lt _ _ _ h
  rw [otpString]
  rw [natOfString_map_digits _ hlt, parseDigits_replicate_zero, parseDigits_decimalDigits]

theorem decimalDigitsAux_length_le (fuel : Nat) :
    ∀ n k, n < fuel → n < 10 ^ k → 0 < k → (decimalDigitsAux fuel n).length ≤ k := by
  induction fuel with
  | zero => omega
  | succ fuel ih =>
    intro n k hn hk hk0
    rw [decimalDigitsAux]
    by_cases h : n < 10
    · simpa [if_pos h] using hk0
    · rw [if_neg h]
      rcases k with _ | k
      · omega
      rcases k with _ | k
      · simp at hk
        omega
      have hfuel : n / 10 < fuel := by
        have : n / 10 < n := Nat.div_lt_self (by omega) (by omega)
        omega
      have hdivk : n / 10 < 10 ^ (k + 1) := by
        rw [Nat.div_lt_iff_lt_mul (by omega : 0 < 10)]
        calc n < 10 ^ (k + 2) := hk
          _ = 10 ^ (k + 1) * 10 := by ring
      have := ih (n / 10) (k + 1) hfuel hdivk (by omega)
      simp only [List.length_append, List.length_cons, List.length_nil]
      omega

theorem decimalDigits_length_le {n k : Nat} (hk : n < 10 ^ k) (hk0 : 0 < k) :
    (decimalDigits n).length ≤ k :=
  decimalDigitsAux_length_le (n + 1) n k (by omega) hk hk0

theorem otpString_length {len n : Nat} (hn : n < 10 ^ len) (hl : 0 < len) :
    (otpString len n).length = len := by
  have hle := decimalDigits_length_le hn hl
  simp only [otpString, String.length, List.length_map, List.length_append,
    List.length_replicate]
  omega

theorem otpString_digits (len n : Nat) :
    ∀ c ∈ (otpString len n).data, c.isDigit = true := by
  intro c hc
  simp only [otpString, List.mem_map] at hc
  obtain ⟨d, hd, rfl⟩ := hc
  have hd10 : d < 10 := by
    rcases List.mem_append.mp hd with h | h
    · have := List.eq_of_mem_replicate h
      omega
    · exact decimalDigitsAux_lt _ _ _ h
  interval_cases d <;> decide

theorem stepBytesAux_length (n : Nat) :
    ∀ ts acc, (stepBytesAux n ts acc).length = n + acc.length := by
  induction n with
  | zero => intro ts acc; simp [stepBytesAux]
  | succ n ih =>
    intro ts acc
    rw [stepBytesAux, ih]
    simp
    omega

theorem counterBytesOfStep_length (ts : Int) : (counterBytesOfStep ts).length = 8 := by
  simp [counterBytesOfStep, stepBytesAux_length]

theorem counterBytesOfStep_ne_nil (ts : Int) : counterBytesOfStep ts ≠ [] := by
  intro h
  have := counterBytesOfStep_length ts
  rw [h] at this
  simp at this

theorem generateOTP_ok {seed counter : List Nat} (hs : seed ≠ []) (hc : counter ≠ [])
    (len : Nat) : GenerateOTP seed counter len = .ok (otpCode seed counter len) := by
  rw [GenerateOTP, if_neg (by simpa using hs), if_neg (by simpa using hc)]

theorem generateTOTP_ok {seed : List Nat} (hs : seed ≠ []) (s : Int) (len : Nat) (t : Int) :
    GenerateTOTP seed s len t = .ok (totpCode seed s len t) := by
  rw [GenerateTOTP, generateOTP_ok hs (counterBytesOfStep_ne_nil _) len, totpCode]

theorem fdiv_ofNat (m : Nat) : Int.fdiv (↑m) 256 = ↑(m / 256) :=
  (Int.ofNat_fdiv m 256).symm

theorem emod_ofNat (m : Nat) : Int.emod (↑m) 256 = ↑(m % 256) := by
  change (↑m : Int) % 256 = ↑(m % 256)
  exact_mod_cast (Int.ofNat_emod m 256).symm

theorem counterBytesOfStep_ofNat (n : Nat) : counterBytesOfStep (↑n) = bigEndian8 n := by
  simp only [counterBytesOfStep, stepBytesAux, fdiv_ofNat, emod_ofNat, Int.toNat_ofNat,
    bigEndian8, List.range_succ, List.range_zero, List.map_append, List.map_cons,
    List.map_nil, List.nil_append, List.cons_append, Nat.div_div_eq_div_mul]
  norm_num

theorem verify_nodrift_iff {seed : List Nat} (hs : seed ≠ []) (s : Int) (len : Nat)
    (now : Int) (ch : String) :
    VerifyChallenge seed s len now ch false = true ↔ ch = totpCode seed s len now := by
  rw [VerifyChallenge]
  simp only [Bool.false_eq_true, if_false]
  rw [collectOTPs, generateTOTP_ok hs, collectOTPs]
  simp only [List.contains_cons, List.contains_nil, Bool.or_false, beq_iff_eq, add_zero]

theorem verify_drift_iff {seed : List Nat} (hs : seed ≠ []) (s : Int) (len : Nat)
    (now : Int) (ch : String) :
    VerifyChallenge seed s len now ch true = true ↔
      (ch = totpCode seed s len now ∨ ch = totpCode seed s len (now - s) ∨
       ch = totpCode seed s len (now + s)) := by
  rw [VerifyChallenge]
  simp only [if_true]
  rw [collectOTPs, generateTOTP_ok hs, collectOTPs, generateTOTP_ok hs,
    collectOTPs, generateTOTP_ok hs, collectOTPs]
  simp only [List.contains_cons, List.contains_nil, Bool.or_false, Bool.or_eq_true,
    beq_iff_eq, add_zero]
  rw [show now + -1 * s = now - s by ring]

theorem verify_emptyseed_false (s : Int) (len : Nat) (now : Int) (ch : String)
    (drift : Bool) : VerifyChallenge [] s len now ch drift = false := by
  rw [VerifyChallenge]
  cases drift <;>
    simp only [Bool.false_eq_true, if_false, if_true] <;>
    rw [collectOTPs] <;>
    rw [show GenerateTOTP [] s len (now + 0) = .error "OTP has no seed." from rfl]

theorem getElem?_getD_lt_256 {l : List Nat} (hl : ∀ b ∈ l, b < 256) (i : Nat) :
    l[i]?.getD 0 < 256 := by
  cases h : l[i]? with
  | none => simp
  | some v =>
    simp only [Option.getD_some]
    exact hl v (List.getElem?_mem h)

theorem otpCode_eq_binCodeSpec (seed counter : List Nat) (len : Nat) :
    otpCode seed counter len = otpString len (binCodeSpec seed counter % pow10 len) := by
  rw [otpCode, binCodeSpec]
  have hlen := hmacSha1_length seed counter
  have hbytes := hmacSha1_bytes_lt seed counter
  rw [hlen]
  norm_num
  rw [and_255_of_lt (getElem?_getD_lt_256 hbytes _),
    and_255_of_lt (getElem?_getD_lt_256 hbytes _),
    and_255_of_lt (getElem?_getD_lt_256 hbytes _)]

/-! ## The claims -/

/-- C1: for every non-empty secret and non-empty counter byte sequence,
GenerateOTP succeeds and the numeric value of the returned code equals the
HOTP dynamic-truncation value binCode (offset from the low nibble of digest
byte 19, first byte masked 0x7F, four bytes combined big-endian) reduced
modulo 10^codeLength. -/
theorem C1_generateOTP_dynamic_truncation (seed counter : List Nat) (len : Nat)
    (hs : seed ≠ []) (hc : counter ≠ []) :
    ∃ code, GenerateOTP seed counter len = .ok code ∧
      natOfString code = binCodeSpec seed counter % 10 ^ len := by
  refine ⟨otpCode seed counter len, generateOTP_ok hs hc len, ?_⟩
  rw [otpCode_eq_binCodeSpec, natOfString_otpString, pow10]

theorem C1_witness :
    ∃ code, GenerateOTP seedT [0, 0, 0, 0, 0, 0, 13, 5] 6 = .ok code ∧
      natOfString code = binCodeSpec seedT [0, 0, 0, 0, 0, 0, 13, 5] % 10 ^ 6 :=
  C1_generateOTP_dynamic_truncation seedT [0, 0, 0, 0, 0, 0, 13, 5] 6
    (by decide) (by decide)

/-- C2, amended: for every nonnegative unixSeconds and positive stepSeconds,
GenerateTOTP computes step = floor(unixSeconds / stepSeconds) (Go's truncated
division agrees with the floor there), encodes the step as an 8-byte
big-endian counter, and returns exactly GenerateOTP of the secret and that
counter.  For negative unixSeconds the code truncates toward zero instead of
flooring, refuting the original claim (see the counterexample). -/
theorem C2_amended_totp_floor (seed : List Nat) (s : Int) (len : Nat) (t : Int)
    (hs : 0 < s) (ht : 0 ≤ t) :
    GenerateTOTP seed s len t =
      GenerateOTP seed (bigEndian8 ((Int.fdiv t s).toNat)) len := by
  have h1 : Int.tdiv t s = Int.fdiv t s := by
    rw [Int.tdiv_eq_ediv ht (le_of_lt hs), Int.fdiv_eq_ediv t (le_of_lt hs)]
  have h2 : Int.fdiv t s = ↑((Int.fdiv t s).toNat) := by
    rw [Int.toNat_of_nonneg]
    rw [Int.fdiv_eq_ediv t (le_of_lt hs)]
    exact Int.ediv_nonneg ht (le_of_lt hs)
  have h3 : Int.tdiv t s = ↑((Int.fdiv t s).toNat) := h1.trans h2
  rw [GenerateTOTP, h3, counterBytesOfStep_ofNat]

theorem C2_amended_witness :
    GenerateTOTP seedT 30 6 100000 =
      GenerateOTP seedT (bigEndian8 ((Int.fdiv 100000 30).toNat)) 6 :=
  C2_amended_totp_floor seedT 30 6 100000 (by norm_num) (by norm_num)

/-- C4: with a non-empty secret, verification with drift accepts exactly the
challenges equal to the code generated for the reference time, for the time
one step earlier, or for the time one step later (so any challenge differing
from all three, in particular a code that only a step two or more away would
produce, is rejected); with an empty secret (the only way generation can
fail) it returns false rather than an error. -/
theorem C4_verify_drift_window (seed : List Nat) (s : Int) (len : Nat)
    (now : Int) (ch : String) :
    (seed ≠ [] →
      (VerifyChallenge seed s len now ch true = true ↔
        (ch = totpCode seed s len now ∨ ch = totpCode seed s len (now - s) ∨
         ch = totpCode seed s len (now + s)))) ∧
    (seed = [] → VerifyChallenge seed s len now ch true = false) := by
  constructor
  · intro hs
    exact verify_drift_iff hs s len now ch
  · intro h
    subst h
    exact verify_emptyseed_false s len now ch true

theorem C4_witness :
    VerifyChallenge seedT 30 6 100000 (totpCode seedT 30 6 100000) true = true :=
  ((C4_verify_drift_window seedT 30 6 100000 (totpCode seedT 30 6 100000)).1
    (by decide)).mpr (Or.inl rfl)

/-- C5: with a non-empty secret, verification without drift accepts exactly
the challenge equal to the code of the current time step, and rejects the
codes of the immediately adjacent steps whenever those differ from the
current one. -/
theorem C5_verify_exact_step (seed : List Nat) (s : Int) (len : Nat) (now : Int)
    (ch : String) (hs : seed ≠ []) :
    (VerifyChallenge seed s len now ch false = true ↔ ch = totpCode seed s len now) ∧
    (totpCode seed s len (now - s) ≠ totpCode seed s len now →
      VerifyChallenge seed s len now (totpCode seed s len (now - s)) false = false) ∧
    (totpCode seed s len (now + s) ≠ totpCode seed s len now →
      VerifyChallenge seed s len now (totpCode seed s len (now + s)) false = false) := by
  refine ⟨verify_nodrift_iff hs s len now ch, ?_, ?_⟩
  · intro hne
    cases hb : VerifyChallenge seed s len now (totpCode seed s len (now - s)) false with
    | false => rfl
    | true => exact absurd ((verify_nodrift_iff hs s len now _).mp hb) hne
  · intro hne
    cases hb : VerifyChallenge seed s len now (totpCode seed s len (now + s)) false with
    | false => rfl
    | true => exact absurd ((verify_nodrift_iff hs s len now _).mp hb) hne

theorem C5_witness :
    VerifyChallenge seedT 30 6 100000 (totpCode seedT 30 6 100000) false = true :=
  ((C5_verify_exact_step seedT 30 6 100000 (totpCode seedT 30 6 100000)
    (by decide)).1).mpr rfl

/-- C6: GenerateOTP returns an error exactly when the secret or the counter
byte sequence is empty, and succeeds with a code otherwise. -/
theorem C6_generateOTP_error_iff (seed counter : List Nat) (len : Nat) :
    ((∃ e, GenerateOTP seed counter len = .error e) ↔ (seed = [] ∨ counter = [])) ∧
    (seed ≠ [] → counter ≠ [] → ∃ code, GenerateOTP seed counter len = .ok code) := by
  constructor
  · constructor
    · rintro ⟨e, he⟩
      by_contra hno
      push_neg at hno
      rw [generateOTP_ok hno.1 hno.2] at he
      exact Except.noConfusion he
    · rintro (h | h)
      · subst h
        exact ⟨"OTP has no seed.", rfl⟩
      · subst h
        by_cases hsd : seed = []
        · subst hsd
          exact ⟨"OTP has no seed.", rfl⟩
        · refine ⟨"Counter is nil or otherwise malformed.", ?_⟩
          rw [GenerateOTP, if_neg (by simpa using hsd)]
          rfl
  · intro h1 h2
    exact ⟨_, generateOTP_ok h1 h2 len⟩

theorem C6_witness :
    ∃ code, GenerateOTP seedT [0] 6 = .ok code :=
  (C6_generateOTP_error_iff seedT [0] 6).2 (by decide) (by decide)

/-- C7: every token built by TokenFromBytes (hence also by NewToken, which
delegates to it) carries as its display encoding the uppercased RFC 4648
base-32 encoding of its secret, and on the 20-byte secret 65..84 that
encoding is the expected constant; the Token fields are immutable by
construction, so nothing changes them afterwards. -/
theorem C7_base32_invariant :
    (∀ bytes : List Nat, ∃ tok, TokenFromBytes bytes = .ok tok ∧ tok.Seed = bytes ∧
      tok.Base32 = toUpperStr (base32Encode bytes)) ∧
    (∃ tok, TokenFromBytes seedT = .ok tok ∧
      tok.Base32 = "IFBEGRCFIZDUQSKKJNGE2TSPKBIVEU2U") := by
  constructor
  · intro bytes
    exact ⟨_, rfl, rfl, rfl⟩
  · exact ⟨_, rfl, by rfl⟩

/-- C8: on a non-empty secret, non-empty counter and positive configured code
length, the generated code is exactly codeLength characters, all of them
decimal digits; the rendering left-pads with zeroes, e.g. 42 at length 6
renders as 000042. -/
theorem C8_code_format (seed counter : List Nat) (len : Nat)
    (hs : seed ≠ []) (hc : counter ≠ []) (hl : 0 < len) :
    (∃ code, GenerateOTP seed counter len = .ok code ∧ code.length = len ∧
      ∀ c ∈ code.data, c.isDigit = true) ∧ otpString 6 42 = "000042" := by
  refine ⟨⟨_, generateOTP_ok hs hc len, ?_, ?_⟩, by rfl⟩
  · rw [otpCode_eq_binCodeSpec]
    refine otpString_length ?_ hl
    calc binCodeSpec seed counter % pow10 len < pow10 len :=
          Nat.mod_lt _ (by rw [pow10]; positivity)
      _ = 10 ^ len := rfl
  · rw [otpCode_eq_binCodeSpec]
    exact otpString_digits _ _

theorem C8_witness :
    (∃ code, GenerateOTP seedT [0] 6 = .ok code ∧ code.length = 6 ∧
      ∀ c ∈ code.data, c.isDigit = true) ∧ otpString 6 42 = "000042" :=
  C8_code_format seedT [0] 6 (by decide) (by decide) (by decide)

/-- C9: the HMAC-SHA1 digest always has exactly 20 bytes and the dynamic
truncation offset (low nibble of the last byte) is at most 15, so the four
accessed indices offset..offset+3 never exceed 18 and stay in bounds. -/
theorem C9_truncation_in_bounds (seed counter : List Nat) :
    (hmacSha1 seed counter).length = 20 ∧
    ((hmacSha1 seed counter).getD ((hmacSha1 seed counter).length - 1) 0 &&& 0xF) + 3 ≤ 18 := by
  refine ⟨hmacSha1_length seed counter, ?_⟩
  have h : ((hmacSha1 seed counter).getD ((hmacSha1 seed counter).length - 1) 0 &&& 0xF) ≤ 15 :=
    Nat.and_le_right
  omega

/-- C10: TokenFromBytes never returns an error: for every byte sequence,
including the empty one, it returns a token holding that sequence as its
secret, with no error. -/
theorem C10_tokenFromBytes_total (bytes : List Nat) :
    ∃ tok, TokenFromBytes bytes = .ok tok ∧ tok.Seed = bytes :=
  ⟨_, rfl, rfl⟩

/-- C3: on the secret 65..84 at unix time 100000 with a 30-second step and
6-digit codes, GenerateTOTP yields the code 111782 (the gotp_test.go vector). -/
theorem C3_test_vector : GenerateTOTP seedT 30 6 100000 = .ok "111782" := by rfl

/-- C2, counterexample: at unix time -1 with step 30, the code truncates the
division toward zero (step 0) instead of flooring it (step -1), so the
returned code differs from GenerateOTP applied to the encoding of the floored
step: the claim fails for negative times. -/
theorem C2_counterexample :
    GenerateTOTP seedT 30 6 (-1) = .ok "650423" ∧
    GenerateOTP seedT (counterBytesOfStep (Int.fdiv (-1) 30)) 6 = .ok "948889" ∧
    GenerateTOTP seedT 30 6 (-1) ≠
      GenerateOTP seedT (counterBytesOfStep (Int.fdiv (-1) 30)) 6 := by
  have ht : GenerateTOTP seedT 30 6 (-1) = .ok "650423" := by rfl
  have hf : GenerateOTP seedT (counterBytesOfStep (Int.fdiv (-1) 30)) 6 = .ok "948889" := by rfl
  refine ⟨ht, hf, ?_⟩
  rw [ht, hf]
  intro h
  exact absurd (Except.ok.inj h) (by decide)
